import Mathlib

/-!
Verification development for the 1C / Tempo reconciliation bot (`bot.py`).

The Python source is shallowly embedded below.  Cells of the spreadsheet are
modelled as `Option String`: `none` stands for an empty cell (pandas `NaN`),
`some s` for a cell whose Python `str()` rendering is `s`.  Python string
operations are re-implemented structurally on `List Char` so that every
definition is executable and kernel-reducible:
* `pyLowerChar`/`pyUpperChar` model `str.lower`/`str.upper` on the alphabets
  actually used by the program (ASCII and Cyrillic);
* `wordsAux` models `str.split()` (split on whitespace, drop empty pieces);
* `trimChars` models `str.strip()`;
* `pyFloat` models `float(...)` on plain decimal literals (sign, digits,
  optional fractional part); exotic inputs (`inf`, exponents, underscores)
  are mapped to `none`, which coincides with the program's behaviour of
  ignoring the value (`float('nan')` never wins a `>` comparison either).
Python `float` arithmetic is modelled with `ℚ`; `round(x, 2)` is modelled by
`round2`, rounding half to even as Python does.
-/

/-- Lower-case one character the way Python `str.lower` does, restricted to
the ASCII and Cyrillic ranges used by the program. -/
def pyLowerChar (c : Char) : Char :=
  if 'A' ≤ c ∧ c ≤ 'Z' then Char.ofNat (c.toNat + 32)
  else if 'А' ≤ c ∧ c ≤ 'Я' then Char.ofNat (c.toNat + 32)
  else if c = 'Ё' then 'ё'
  else c

/-- Upper-case one character (`str.upper`), restricted to ASCII and Cyrillic. -/
def pyUpperChar (c : Char) : Char :=
  if 'a' ≤ c ∧ c ≤ 'z' then Char.ofNat (c.toNat - 32)
  else if 'а' ≤ c ∧ c ≤ 'я' then Char.ofNat (c.toNat - 32)
  else if c = 'ё' then 'Ё'
  else c

def lowerL (l : List Char) : List Char := l.map pyLowerChar

def upperL (l : List Char) : List Char := l.map pyUpperChar

/-- Model of `s.replace('.', ' ')` (single-character replacement). -/
def dotToSpace (c : Char) : Char := if c = '.' then ' ' else c

/-- Model of `s.replace(',', '.')` (single-character replacement). -/
def commaToDot (c : Char) : Char := if c = ',' then '.' else c

/-- Does `pat` occur at the head of `l`?  (Model of `str.startswith`.) -/
def startsWithL : List Char → List Char → Bool
  | [], _ => true
  | _ :: _, [] => false
  | p :: ps, c :: cs => p == c && startsWithL ps cs

/-- Does `pat` occur anywhere in `l`?  (Model of Python `pat in s`.) -/
def containsL (pat : List Char) : List Char → Bool
  | [] => pat.isEmpty
  | c :: cs => startsWithL pat (c :: cs) || containsL pat cs

/-- Model of `str.split()`: split on whitespace runs and drop empty pieces.
`cur` accumulates the current word in reverse. -/
def wordsAux : List Char → List Char → List (List Char)
  | [], cur => if cur.isEmpty then [] else [cur.reverse]
  | c :: cs, cur =>
    if c.isWhitespace then
      if cur.isEmpty then wordsAux cs [] else cur.reverse :: wordsAux cs []
    else wordsAux cs (c :: cur)

/-- Model of `str.strip()`. -/
def trimChars (l : List Char) : List Char :=
  ((l.dropWhile Char.isWhitespace).reverse.dropWhile Char.isWhitespace).reverse

/-- Model of `str.isdigit()` (restricted to ASCII digits). -/
def pyIsdigit (l : List Char) : Bool := !l.isEmpty && l.all Char.isDigit

/-- Numeric value of a list of ASCII digit characters. -/
def digitsToNat (l : List Char) : Nat := l.foldl (fun acc c => 10 * acc + (c.toNat - 48)) 0

/-- Longest run of leading ASCII digits, and the remainder. -/
def leadDigits : List Char → List Char × List Char
  | [] => ([], [])
  | c :: cs =>
    if c.isDigit then
      let (d, r) := leadDigits cs
      (c :: d, r)
    else ([], c :: cs)

/-- Strip the literal `pat` from the head of `l`, if present. -/
def dropLit : List Char → List Char → Option (List Char)
  | [], rest => some rest
  | _ :: _, [] => none
  | p :: ps, c :: cs => if c = p then dropLit ps cs else none

/-- Strict code-point lexicographic order on character lists (the order Python
uses to compare strings, also the order of `sorted`). -/
def lexLtL : List Char → List Char → Bool
  | [], [] => false
  | [], _ :: _ => true
  | _ :: _, [] => false
  | a :: as, b :: bs => if a < b then true else if b < a then false else lexLtL as bs

/-- Python truthiness of the optional column index `hours_col_idx`
(`None` and `0` are falsy). -/
def pyTruthyNat : Option Nat → Bool
  | none => false
  | some n => n != 0

/-! ## `get_team_rank` (bot.py lines 110-119) and the report ordering key -/

/-- Value of the regex search `re.search(r'stream(\d+)', tn)`: the digit run
following the first occurrence of `stream` that is immediately followed by at
least one digit. -/
def streamHere (l : List Char) : Option Nat :=
  match dropLit ['s', 't', 'r', 'e', 'a', 'm'] l with
  | none => none
  | some rest =>
    let (ds, _) := leadDigits rest
    if ds.isEmpty then none else some (digitsToNat ds)

def streamSearch : List Char → Option Nat
  | [] => none
  | c :: cs =>
    match streamHere (c :: cs) with
    | some n => some n
    | none => streamSearch cs

/-- Shallow embedding of `get_team_rank` (bot.py lines 110-119). -/
def get_team_rank (team_name : String) : Nat × Nat × String :=
  let tn := String.mk (lowerL team_name.data)
  if tn = "other" then (99, 0, tn)
  else if containsL "arch-team".data tn.data then (1, 0, tn)
  else if containsL "change-team".data tn.data then (2, 0, tn)
  else if containsL "stream".data tn.data then
    (3, (streamSearch tn.data).getD 999, tn)
  else (4, 0, tn)

/-- Sort key comparison used by `df.sort_values(by=['SortRank', 'SortNum', 'Team', ...])`
restricted to a list of team names: lexicographic on
(rank tier, stream number, team name). -/
def teamKeyLt (a b : String) : Bool :=
  let ra := get_team_rank a
  let rb := get_team_rank b
  ra.1 < rb.1 || (ra.1 == rb.1 && (ra.2.1 < rb.2.1 || (ra.2.1 == rb.2.1 && lexLtL a.data b.data)))

def insTeam (x : String) : List String → List String
  | [] => [x]
  | y :: ys => if teamKeyLt y x then y :: insTeam x ys else x :: y :: ys

/-- Sorting a list of team names by the team rank key (insertion sort; all
keys in the statements below are distinct, so the order is the unique sorted
order). -/
def sortTeams (l : List String) : List String := l.foldr insTeam []

/-! ## `check_name_match` (bot.py lines 162-166) -/

/-- Token list of a name: lower-case, replace `.` with space, split on
whitespace, keep only tokens longer than one character
(bot.py lines 164-165). -/
def tokensL (l : List Char) : List (List Char) :=
  (wordsAux ((lowerL l).map dotToSpace) []).filter (fun t => 1 < t.length)

/-- Shallow embedding of `check_name_match` (bot.py lines 162-166).  The
guard models Python falsiness of an empty name; the body models
`not set(j_parts).isdisjoint(set(e_parts))`. -/
def check_name_match (jira_name excel_name : String) : Bool :=
  if jira_name.data.isEmpty || excel_name.data.isEmpty then false
  else (tokensL jira_name.data).any (fun t => (tokensL excel_name.data).any (fun u => u = t))

/-! ## Rounding and the report row builder (bot.py lines 288-314) -/

/-- Round a rational to the nearest integer, halves to even — the rounding
Python's `round` uses. -/
def roundHalfEven (q : ℚ) : ℤ :=
  let f := ⌊q⌋
  let r := q - (f : ℚ)
  if r < 1 / 2 then f
  else if 1 / 2 < r then f + 1
  else if 2 ∣ f then f else f + 1

/-- Model of Python `round(x, 2)`. -/
def round2 (q : ℚ) : ℚ := (roundHalfEven (q * 100) : ℚ) / 100

structure DirectoryUser where
  login : String
  key : String
  /-- `displayName`; the program stores `None` for users without one, which we
  model as `""` (both are falsy in Python, and both fail `check_name_match`
  and the `j_name == "—"` comparison the same way). -/
  displayName : String
deriving DecidableEq, Repr

/-- One extracted employee record (the dicts appended to `excel_data`,
bot.py line 268). -/
structure Record where
  name_1c : String
  hours_1c : ℚ
  jira_user : Option DirectoryUser
  absences : List String
deriving DecidableEq, Repr

/-- One row of the final report (bot.py lines 309-314; the `Link` column is
presentation-only and not modelled). -/
structure ReportRow where
  team : String
  name_1c : String
  name_jira : String
  jira_key : String
  hours_1c : ℚ
  absencesStr : String
  hours_tempo : ℚ
  diff : ℚ
  status : String
deriving DecidableEq, Repr

/-- Model of `", ".join(...)`. -/
def strJoin (sep : String) : List String → String
  | [] => ""
  | [x] => x
  | x :: y :: xs => x ++ sep ++ strJoin sep (y :: xs)

/-- Python `a or b` for the worklog totals lookup
(`tempo_agg.get(j_key) or tempo_agg.get(j_login) or 0`, bot.py line 299):
`None` and `0` are falsy. -/
def orFalsy (a : Option ℤ) (b : ℤ) : ℤ :=
  match a with
  | none => b
  | some x => if x = 0 then b else x

/-- Shallow embedding of the report row assembly (bot.py lines 291-314).
`teamMap` is `team_mapping`, `agg` is `tempo_agg` (a map possibly keyed by a
missing `worker` field, hence `Option String` keys). -/
def buildRow (teamMap : String → Option String) (agg : Option String → Option ℤ)
    (r : Record) : ReportRow :=
  let j_name := match r.jira_user with | none => "—" | some u => u.displayName
  let j_key := match r.jira_user with | none => "—" | some u => u.key
  let t_sec : ℤ := match r.jira_user with
    | none => 0
    | some u => orFalsy (agg (some u.key)) (orFalsy (agg (some u.login)) 0)
  let t_name := match r.jira_user with
    | none => "Other"
    | some u => match teamMap u.key with | some n => n | none => "Other"
  let t_hours := round2 ((t_sec : ℚ) / 3600)
  let diff := round2 (t_hours - r.hours_1c)
  let status :=
    if j_name = "—" then "❓ Не найден в Jira"
    else if 4 < |diff| then "⚠️ Расхождение"
    else "✅ OK"
  { team := t_name, name_1c := r.name_1c, name_jira := j_name, jira_key := j_key,
    hours_1c := r.hours_1c, absencesStr := strJoin ", " r.absences,
    hours_tempo := t_hours, diff := diff, status := status }

/-! ## The spreadsheet model and the table locator (bot.py lines 196-268) -/

/-- A spreadsheet cell: `none` is an empty cell (pandas `NaN`), `some s` a
cell whose Python `str()` rendering is `s`. -/
abbrev Cell := Option String

/-- The raw sheet `df_raw`: a fixed column count and the list of rows.
Missing entries read as `NaN` (`cellAt` defaults to `none`). -/
structure Sheet where
  ncols : Nat
  rows : List (List Cell)
deriving DecidableEq, Repr

/-- `str(val)` of a cell: `str(nan)` is the string `"nan"`. -/
def cellStr : Cell → String
  | none => "nan"
  | some s => s

def cellAt (s : Sheet) (r c : Nat) : Cell := (s.rows.getD r []).getD c none

/-- Does this cell satisfy `str(val).lower().startswith("фамилия")`
(bot.py line 215)? -/
def headerMatch (cell : Cell) : Bool :=
  startsWithL "фамилия".data (lowerL (cellStr cell).data)

/-- Scan one row for the first header cell, returning its column index
(the inner `for c, val in enumerate(row)` loop, bot.py lines 214-217). -/
def findColAux : List Cell → Nat → Option Nat
  | [], _ => none
  | c :: cs, k => if headerMatch c then some k else findColAux cs (k + 1)

/-- Row-major scan for the first header cell (bot.py lines 213-218). -/
def findHeaderAux : List (List Cell) → Nat → Option (Nat × Nat)
  | [], _ => none
  | row :: rest, r =>
    match findColAux row 0 with
    | some c => some (r, c)
    | none => findHeaderAux rest (r + 1)

/-- `(header_row_idx, name_col_idx)` or `none` if no cell matches. -/
def findHeader (s : Sheet) : Option (Nat × Nat) := findHeaderAux s.rows 0

/-- Model of `float(str)` on plain decimal literals: an unsigned number is a
digit run, optionally followed by `.` and a digit run, with at least one
digit overall. -/
def parseUnsignedQ (l : List Char) : Option ℚ :=
  let intPart := l.takeWhile Char.isDigit
  let rest := l.dropWhile Char.isDigit
  match rest with
  | [] => if intPart.isEmpty then none else some ((digitsToNat intPart : ℚ))
  | '.' :: frac =>
    if frac.all Char.isDigit && !(intPart.isEmpty && frac.isEmpty) then
      some ((digitsToNat intPart : ℚ) + (digitsToNat frac : ℚ) / (10 ^ frac.length))
    else none
  | _ => none

/-- Model of Python `float(s)` (see the header comment for its scope). -/
def pyFloat (s : String) : Option ℚ :=
  match trimChars s.data with
  | '-' :: rest => (parseUnsignedQ rest).map (fun q => -q)
  | '+' :: rest => parseUnsignedQ rest
  | l => parseUnsignedQ l

/-- Locate the hours column (bot.py lines 224-230): scan the row at the
sheet's midpoint right-to-left and take the first non-empty cell whose text
parses as a number after `replace(',', '.')`. -/
def locateHoursCol (s : Sheet) : Option Nat :=
  ((List.range s.ncols).reverse).findSome? (fun c =>
    match cellAt s (s.rows.length / 2) c with
    | none => none
    | some v => if (pyFloat (String.mk (v.data.map commaToDot))).isSome then some c else none)

/-- Locate the absence-code columns (bot.py lines 232-235): scan
`header_row .. header_row+2` (bounded by the sheet), keep each column right of
the name column whose cell text contains `"код"`, without duplicates. -/
def locateAbsenceCols (s : Sheet) (headerRow nameCol : Nat) : List Nat :=
  (List.range' headerRow (Nat.min (headerRow + 3) s.rows.length - headerRow)).foldl
    (fun acc r =>
      (List.range s.ncols).foldl
        (fun acc2 c =>
          if nameCol < c ∧ containsL "код".data (lowerL (cellStr (cellAt s r c)).data)
              ∧ ¬ acc2.contains c
          then acc2 ++ [c] else acc2)
        acc)
    []

/-! ## The record extractor (bot.py lines 241-268) -/

/-- Offsets of the up-to-4-row block starting at row `i` (the
`for offset in range(4)` loop with its `break` at the sheet end,
bot.py lines 251-252). -/
def blockOffsets (s : Sheet) (i : Nat) : List Nat :=
  (List.range 4).filter (fun o => i + o < s.rows.length)

/-- Consolidated hours of the block at row `i` (bot.py lines 253-257):
maximum parseable value in the hours column across the block, `0` if the
hours column index is falsy (`None` or `0`). -/
def blockHours (s : Sheet) (i : Nat) (hoursIdx : Option Nat) : ℚ :=
  (blockOffsets s i).foldl
    (fun cur o =>
      if pyTruthyNat hoursIdx then
        match pyFloat (String.mk (((cellStr (cellAt s (i + o) (hoursIdx.getD 0))).data.map
            commaToDot).filter (fun c => c ≠ ' '))) with
        | some h => if cur < h then h else cur
        | none => cur
      else cur)
    0

/-- Acceptance test for one stripped absence cell value (bot.py line 263):
non-blank, not a digit string, shorter than 5 characters, and not the
attendance marker `Я` (case-insensitively). -/
def absCond (v : String) : Bool :=
  !v.data.isEmpty && !pyIsdigit v.data && v.data.length < 5
    && String.mk (upperL v.data) ≠ "Я"

/-- All accepted absence values of the block at row `i` (bot.py lines
259-263), with multiplicity; the program keeps them in a set, so only
membership matters. -/
def blockAbsences (s : Sheet) (i : Nat) (cols : List Nat) : List String :=
  ((blockOffsets s i).map (fun o =>
    cols.filterMap (fun c =>
      match cellAt s (i + o) c with
      | none => none
      | some v =>
        let sv := String.mk (trimChars v.data)
        if absCond sv then some sv else none))).flatten

/-- Keep-first deduplication (model of building a Python set and listing it). -/
def dedupAux (seen : List String) : List String → List String
  | [] => []
  | x :: xs => if seen.contains x then dedupAux seen xs else x :: dedupAux (x :: seen) xs

def dedup (l : List String) : List String := dedupAux [] l

def insStr (x : String) : List String → List String
  | [] => [x]
  | y :: ys => if lexLtL y.data x.data then y :: insStr x ys else x :: y :: ys

/-- Model of Python `sorted` on strings (code-point order). -/
def sortStr (l : List String) : List String := l.foldr insStr []

/-- The non-employee row labels (bot.py line 245). -/
def skipKeywords : List String := ["итого", "подпись", "должность", "профессия"]

/-- Model of `str(raw_name).split('\n')[0].split('(')[0].strip()`
(bot.py line 247). -/
def cleanNameOf (raw : String) : String :=
  String.mk (trimChars ((raw.data.takeWhile (fun c => c ≠ '\n')).takeWhile (fun c => c ≠ '(')))

/-- Process the candidate row `i` of the extraction loop (bot.py lines
241-268): `none` if the row is skipped or not emitted, otherwise the emitted
record.  `users` models `unique_users`. -/
def recordAt (s : Sheet) (users : List DirectoryUser) (nameCol : Nat)
    (hoursIdx : Option Nat) (cols : List Nat) (i : Nat) : Option Record :=
  match cellAt s i nameCol with
  | none => none
  | some raw =>
    if raw.data.length < 2 then none
    else if skipKeywords.any (fun k => containsL k.data (lowerL raw.data)) then none
    else
      let cleanName := cleanNameOf raw
      let hours := blockHours s i hoursIdx
      let abs0 := blockAbsences s i cols
      if 0 < hours ∨ abs0 ≠ [] then
        some { name_1c := cleanName, hours_1c := hours,
               jira_user := users.find? (fun u => check_name_match u.displayName cleanName),
               absences := sortStr (dedup abs0) }
      else none

/-- The full extraction loop (`for i in range(header_row_idx + 1, len(df_raw))`,
bot.py line 241). -/
def extractRecords (s : Sheet) (users : List DirectoryUser) (headerRow nameCol : Nat)
    (hoursIdx : Option Nat) (cols : List Nat) : List Record :=
  (List.range' (headerRow + 1) (s.rows.length - (headerRow + 1))).filterMap
    (recordAt s users nameCol hoursIdx cols)

/-! ## Period extraction (bot.py lines 168-176, 202-205) -/

/-- A 10-character window matching the regex `\d{2}\.\d{2}\.\d{4}`, returned
together with the remaining characters. -/
def tryDate : List Char → Option (String × List Char)
  | d1 :: d2 :: '.' :: m1 :: m2 :: '.' :: y1 :: y2 :: y3 :: y4 :: rest =>
    if [d1, d2, m1, m2, y1, y2, y3, y4].all Char.isDigit then
      some (String.mk [d1, d2, '.', m1, m2, '.', y1, y2, y3, y4], rest)
    else none
  | _ => none

/-- Left-to-right non-overlapping scan of `re.findall(r'\d{2}\.\d{2}\.\d{4}', s)`.
The fuel argument (instantiated with the length of the text) keeps the
recursion structural; every step consumes at least one character, so the fuel
never runs out. -/
def dateScan : Nat → List Char → List String
  | 0, _ => []
  | _ + 1, [] => []
  | fuel + 1, c :: cs =>
    match tryDate (c :: cs) with
    | some (d, rest) => d :: dateScan fuel rest
    | none => dateScan fuel cs

def dateMatchesL (l : List Char) : List String := dateScan l.length l

def isLeap (y : Nat) : Bool := (y % 4 == 0 && y % 100 != 0) || y % 400 == 0

def daysInMonth (y m : Nat) : Nat :=
  if m = 2 then (if isLeap y then 29 else 28)
  else if m = 4 ∨ m = 6 ∨ m = 9 ∨ m = 11 then 30
  else 31

def validDate (y m d : Nat) : Bool :=
  1 ≤ y && y ≤ 9999 && 1 ≤ m && m ≤ 12 && 1 ≤ d && d ≤ daysInMonth y m

def digitVal (c : Char) : Nat := c.toNat - 48

/-- `datetime.strptime(m, '%d.%m.%Y').date()` on a regex match, encoded as the
order-preserving key `y * 10000 + m * 100 + d`; `none` models the
`ValueError` of an invalid calendar date. -/
def parseDateKey (s : String) : Option Nat :=
  match s.data with
  | [d1, d2, '.', m1, m2, '.', y1, y2, y3, y4] =>
    let d := digitVal d1 * 10 + digitVal d2
    let m := digitVal m1 * 10 + digitVal m2
    let y := digitVal y1 * 1000 + digitVal y2 * 100 + digitVal y3 * 10 + digitVal y4
    if validDate y m d then some (y * 10000 + m * 100 + d) else none
  | _ => none

/-- Date-shaped substrings of one row.  The program scans
`str(row.values)`; separators between cells in that rendering cannot
contribute to a `\d{2}\.\d{2}\.\d{4}` match, so the matches are exactly the
per-cell matches in order. -/
def rowDates (row : List Cell) : List String :=
  (row.map (fun c => dateMatchesL (cellStr c).data)).flatten

/-- All valid dates found in the first 20 rows (`df_raw.head(20)` is passed to
`extract_period_from_excel`, bot.py line 202). -/
def periodDates (s : Sheet) : List Nat :=
  (((s.rows.take 20).map rowDates).flatten).filterMap parseDateKey

/-- Shallow embedding of `extract_period_from_excel` (bot.py lines 168-176):
`(min dates, max dates)` when at least two dates were found, else `none`
(which the caller turns into an abort). -/
def extractPeriod (s : Sheet) : Option (Nat × Nat) :=
  match periodDates s with
  | x :: y :: rest => some ((y :: rest).foldl Nat.min x, (y :: rest).foldl Nat.max x)
  | _ => none

/-! ## Tempo teams and worklogs (bot.py lines 121-160) -/

structure TeamInfo where
  id : Nat
  name : String
deriving DecidableEq, Repr

/-- One membership entry of a team-member response.  `rawFrom`/`rawTo` model
`ms.get('dateFromANSI') or ms.get('dateFrom')` (already coalesced; `none` when
both are missing or falsy). -/
structure MemberEntry where
  memberKey : Option String
  rawFrom : Option String
  rawTo : Option String
deriving DecidableEq, Repr

/-- Shallow embedding of `parse_tempo_date` (bot.py lines 100-108), returning
the `y * 10000 + m * 100 + d` key.  `strptime` validation of the numeric
fields is modelled by `validDate`. -/
def parse_tempo_date (v : Option String) : Option Nat :=
  match v with
  | none => none
  | some s0 =>
    if s0.data.isEmpty then none
    else
      let l := (trimChars (lowerL s0.data)).takeWhile (fun c => c ≠ 't')
      let mkKey := fun (y m d : List Char) =>
        if !y.isEmpty && y.all Char.isDigit && !m.isEmpty && m.all Char.isDigit
            && !d.isEmpty && d.all Char.isDigit
            && validDate (digitsToNat y) (digitsToNat m) (digitsToNat d) then
          some (digitsToNat y * 10000 + digitsToNat m * 100 + digitsToNat d)
        else none
      if containsL ['-'] l then
        match (l.takeWhile (fun c => c ≠ '-')),
              ((l.dropWhile (fun c => c ≠ '-')).drop 1) with
        | y, rest =>
          mkKey y (rest.takeWhile (fun c => c ≠ '-')) ((rest.dropWhile (fun c => c ≠ '-')).drop 1)
      else if containsL ['/'] l then
        match (l.takeWhile (fun c => c ≠ '/')),
              ((l.dropWhile (fun c => c ≠ '/')).drop 1) with
        | y, rest =>
          mkKey y (rest.takeWhile (fun c => c ≠ '/')) ((rest.dropWhile (fun c => c ≠ '/')).drop 1)
      else if containsL ['.'] l then
        match (l.takeWhile (fun c => c ≠ '.')),
              ((l.dropWhile (fun c => c ≠ '.')).drop 1) with
        | d, rest =>
          mkKey ((rest.dropWhile (fun c => c ≠ '.')).drop 1) (rest.takeWhile (fun c => c ≠ '.')) d
      else none

/-- The team-name filter `^(stream.*-team|change-team|arch-team)$`
(case-insensitive, bot.py line 130). -/
def teamNamePat (n : String) : Bool :=
  let tn := lowerL n.data
  tn = "change-team".data || tn = "arch-team".data
    || (startsWithL "stream".data tn && startsWithL "maet-".data tn.reverse && 11 ≤ tn.length)

/-- Shallow embedding of `get_tempo_teams_assignments` (bot.py lines 121-148).
`allTeams` is the `/team` listing (`none` = failed request, which yields the
empty map); `memberOracle` gives each team's member listing (`none` = failed
or non-200 request, which skips the team).  The result maps a Jira key to the
last matching team name (overwrite semantics of `user_team_map[jira_key] = ...`). -/
def getTempoTeamsAssignments (allTeams : Option (List TeamInfo))
    (memberOracle : Nat → Option (List MemberEntry))
    (startKey endKey : Nat) : String → Option String :=
  match allTeams with
  | none => fun _ => none
  | some ts =>
    (ts.filter (fun t => teamNamePat t.name)).foldl
      (fun m t =>
        match memberOracle t.id with
        | none => m
        | some ms =>
          ms.foldl
            (fun m2 mem =>
              match mem.memberKey with
              | none => m2
              | some k =>
                let dFrom := (parse_tempo_date mem.rawFrom).getD 20000101
                let dTo := (parse_tempo_date mem.rawTo).getD 20991231
                if dFrom ≤ endKey ∧ startKey ≤ dTo then
                  fun x => if x = k then some t.name else m2 x
                else m2)
            m)
      (fun _ => none)

structure Worklog where
  worker : Option String
  timeSpentSeconds : ℤ
deriving DecidableEq, Repr

/-- The batching `[worker_ids[i:i + 25] for i in range(0, len(worker_ids), 25)]`
(bot.py line 152).  The fuel argument (instantiated with the list length,
always enough since every step consumes at least one element) keeps the
recursion structural. -/
def chunksGo : Nat → List String → List (List String)
  | _, [] => []
  | 0, _ :: _ => []
  | fuel + 1, x :: xs => ((x :: xs).take 25) :: chunksGo fuel ((x :: xs).drop 25)

def chunks25 (ids : List String) : List (List String) := chunksGo ids.length ids

/-- Shallow embedding of `fetch_tempo_worklogs_for_users` (bot.py lines
150-160): one request per batch, in order; a failed request (`none` from the
oracle) contributes nothing. -/
def fetchTempoWorklogs (req : List String → Option (List Worklog))
    (ids : List String) : List Worklog :=
  ((chunks25 ids).map (fun c => (req c).getD [])).flatten

/-- The aggregation `tempo_agg[wid] = tempo_agg.get(wid, 0) + l.get('timeSpentSeconds', 0)`
(bot.py lines 284-286), as a map from the optional `worker` field. -/
def aggStep (m : Option String → Option ℤ) (l : Worklog) : Option String → Option ℤ :=
  fun x => if x = l.worker then some ((m l.worker).getD 0 + l.timeSpentSeconds) else m x

def tempoAggOf (logs : List Worklog) : Option String → Option ℤ :=
  logs.foldl aggStep (fun _ => none)

/-! ## The per-file pipeline (bot.py lines 190-319) -/

/-- Report ordering key comparison, `['SortRank', 'SortNum', 'Team', 'Сотрудник (1C)']`
(bot.py lines 317-319). -/
def rowKeyLt (a b : ReportRow) : Bool :=
  let ra := get_team_rank a.team
  let rb := get_team_rank b.team
  ra.1 < rb.1 || (ra.1 == rb.1 && (ra.2.1 < rb.2.1 || (ra.2.1 == rb.2.1
    && (lexLtL a.team.data b.team.data || (a.team == b.team
      && lexLtL a.name_1c.data b.name_1c.data)))))

def insRow (x : ReportRow) : List ReportRow → List ReportRow
  | [] => [x]
  | y :: ys => if rowKeyLt y x then y :: insRow x ys else x :: y :: ys

def sortRows (l : List ReportRow) : List ReportRow := l.foldr insRow []

/-- The Jira keys of the resolved records, deduplicated
(`target_jira_keys` is a Python set). -/
def targetKeys (recs : List Record) : List String :=
  dedup (recs.filterMap (fun r => r.jira_user.map (fun u => u.key)))

/-- The pure core of `worker_process_file` (bot.py lines 196-319), from the
parsed sheet to the report rows.  External requests are oracles: `allTeams`
and `memberOracle` feed the team map, `batchOracle` answers each worklog
batch request.  The two abort paths return the user-visible message that the
program posts before `return`ing without a report. -/
def processFile (s : Sheet) (users : List DirectoryUser)
    (allTeams : Option (List TeamInfo)) (memberOracle : Nat → Option (List MemberEntry))
    (batchOracle : List String → Option (List Worklog)) :
    Except String (List ReportRow) :=
  match extractPeriod s with
  | none => .error "⚠️ Не найден период дат."
  | some (startKey, endKey) =>
    match findHeader s with
    | none => .error "❌ Не найдена колонка 'Фамилия'."
    | some (headerRow, nameCol) =>
      let hoursIdx := locateHoursCol s
      let cols := locateAbsenceCols s headerRow nameCol
      let recs := extractRecords s users headerRow nameCol hoursIdx cols
      let teamMap := getTempoTeamsAssignments allTeams memberOracle startKey endKey
      let agg := tempoAggOf (fetchTempoWorklogs batchOracle (targetKeys recs))
      .ok (sortRows (recs.map (buildRow teamMap agg)))

/-! ## Concrete fixtures used by the witness theorems -/

def wUser : DirectoryUser := { login := "ivanov", key := "k1", displayName := "Иван Иванов" }

def wSheet : Sheet :=
  { ncols := 2, rows := [[some "Фамилия", some "Код"], [some "Иванов Иван Иванович", some "ОТ"]] }

def wRec : Record :=
  { name_1c := "Иванов Иван Иванович", hours_1c := 0, jira_user := some wUser, absences := ["ОТ"] }

def wIds : List String := (List.range 60).map (fun n => String.mk [Char.ofNat (65 + n)])

def wSheetND : Sheet := { ncols := 1, rows := [[some "Фамилия"]] }

def wSheetP : Sheet := { ncols := 1, rows := [[some "01.01.2024 - 31.01.2024"]] }

/-! ## Theorems -/

lemma tokensL_nil : tokensL [] = [] := rfl

/-- `check_name_match` is true exactly when the two token sets intersect. -/
lemma check_name_match_iff (a b : String) :
    check_name_match a b = true ↔ ∃ t, t ∈ tokensL a.data ∧ t ∈ tokensL b.data := by
  unfold check_name_match
  rcases ha : a.data.isEmpty with _ | _
  · rcases hb : b.data.isEmpty with _ | _
    · simp only [ha, hb, Bool.or_self, if_neg Bool.false_ne_true, List.any_eq_true,
        decide_eq_true_iff]
      constructor
      · rintro ⟨t, ht, u, hu, rfl⟩
        exact ⟨u, ht, hu⟩
      · rintro ⟨t, ht, hu⟩
        exact ⟨t, ht, t, hu, rfl⟩
    · rw [List.isEmpty_iff] at hb
      simp [ha, hb, tokensL_nil]
  · rw [List.isEmpty_iff] at ha
    simp [ha, tokensL_nil]

/-- C4: two names match exactly when, after lower-casing, replacing `.` with
space, splitting on whitespace, and discarding tokens of length at most one,
their token sets intersect; the relation is symmetric (hence word-order
independent), `"Иванов Иван"` matches `"Иван Иванов"`, and a single shared
token suffices (the intersection witness is one token). -/
theorem name_match_token_overlap :
    (∀ a b, check_name_match a b = check_name_match b a)
    ∧ (∀ a b, check_name_match a b = true ↔
        ∃ t, t ∈ tokensL a.data ∧ t ∈ tokensL b.data)
    ∧ check_name_match "Иванов Иван" "Иван Иванов" = true := by
  refine ⟨fun a b => ?_, check_name_match_iff, by decide⟩
  rw [Bool.eq_iff_iff, check_name_match_iff, check_name_match_iff]
  constructor
  · rintro ⟨t, h1, h2⟩; exact ⟨t, h2, h1⟩
  · rintro ⟨t, h1, h2⟩; exact ⟨t, h2, h1⟩

/-- Witness for the quantified parts of `name_match_token_overlap` at concrete
inputs. -/
theorem name_match_token_overlap_witness :
    check_name_match "Иванов Иван" "Петров" = check_name_match "Петров" "Иванов Иван"
    ∧ (check_name_match "Иванов Иван" "Иван Иванов" = true ↔
        ∃ t, t ∈ tokensL "Иванов Иван".data ∧ t ∈ tokensL "Иван Иванов".data) :=
  ⟨name_match_token_overlap.1 _ _, name_match_token_overlap.2.1 _ _⟩

/-- C1 counterexample: the claimed order (`streamA-team` before `stream2-team`)
is not what sorting by the team rank key produces. -/
theorem team_sort_claim_false :
    sortTeams ["Other", "stream2-team", "arch-team", "streamA-team", "change-team"] ≠
      ["arch-team", "change-team", "streamA-team", "stream2-team", "Other"] := by
  decide

/-- C1 amended: sorting by the team rank key orders the list as
`arch-team, change-team, stream2-team, streamA-team, Other` — a stream team
without a number receives the sentinel stream number 999 and therefore ranks
after the numbered stream teams within the stream tier. -/
theorem team_sort_actual_order :
    sortTeams ["Other", "stream2-team", "arch-team", "streamA-team", "change-team"] =
      ["arch-team", "change-team", "stream2-team", "streamA-team", "Other"]
    ∧ get_team_rank "streamA-team" = (3, 999, "streama-team")
    ∧ get_team_rank "stream2-team" = (3, 2, "stream2-team") := by
  refine ⟨by decide, by decide, by decide⟩

/-- The name of the unresolved marker never matches any name: its only token
has length 1 and is discarded. -/
lemma check_name_match_dash (e : String) : check_name_match "—" e = false := by
  have ht : tokensL "—".data = [] := by decide
  unfold check_name_match
  rw [ht]
  simp

/-- Fields of a record emitted by the extraction loop at row `i`. -/
lemma recordAt_some {s : Sheet} {users : List DirectoryUser} {nameCol : Nat}
    {hoursIdx : Option Nat} {cols : List Nat} {i : Nat} {rec : Record}
    (h : recordAt s users nameCol hoursIdx cols i = some rec) :
    rec.hours_1c = blockHours s i hoursIdx
    ∧ rec.jira_user = users.find? (fun u => check_name_match u.displayName rec.name_1c)
    ∧ rec.absences = sortStr (dedup (blockAbsences s i cols))
    ∧ (0 < blockHours s i hoursIdx ∨ blockAbsences s i cols ≠ []) := by
  unfold recordAt at h
  split at h
  · exact Option.noConfusion h
  · split at h
    · exact Option.noConfusion h
    · split at h
      · exact Option.noConfusion h
      · simp only [] at h
        split at h
        · rename_i h3
          injection h with h
          subst h
          exact ⟨rfl, rfl, rfl, h3⟩
        · exact Option.noConfusion h

/-- Every extracted record comes from `recordAt` at some row. -/
lemma mem_extractRecords {s : Sheet} {users : List DirectoryUser}
    {headerRow nameCol : Nat} {hoursIdx : Option Nat} {cols : List Nat} {rec : Record}
    (h : rec ∈ extractRecords s users headerRow nameCol hoursIdx cols) :
    ∃ i, recordAt s users nameCol hoursIdx cols i = some rec := by
  unfold extractRecords at h
  rcases List.mem_filterMap.mp h with ⟨i, _, hi⟩
  exact ⟨i, hi⟩

/-- Status and difference of a report row built from a resolved record whose
display name is not the unresolved marker. -/
lemma buildRow_resolved (tm : String → Option String) (agg : Option String → Option ℤ)
    (r : Record) (u : DirectoryUser) (hres : r.jira_user = some u)
    (hd : u.displayName ≠ "—") :
    (buildRow tm agg r).status =
      (if 4 < |(buildRow tm agg r).diff| then "⚠️ Расхождение" else "✅ OK")
    ∧ (buildRow tm agg r).diff = round2 ((buildRow tm agg r).hours_tempo - r.hours_1c) := by
  refine ⟨?_, ?_⟩ <;> simp [buildRow, hres, if_neg hd]

/-- C2: for every report row built from an extracted record whose identity was
resolved, the status is `⚠️ Расхождение` (VARIANCE) exactly when the rounded
difference exceeds 4 in absolute value, and `✅ OK` otherwise; a difference of
exactly 4.00 yields OK and 4.01 yields VARIANCE. -/
theorem resolved_status_variance_iff
    (s : Sheet) (users : List DirectoryUser) (headerRow nameCol : Nat)
    (hoursIdx : Option Nat) (cols : List Nat)
    (tm : String → Option String) (agg : Option String → Option ℤ)
    (rec : Record) (u : DirectoryUser)
    (hrec : rec ∈ extractRecords s users headerRow nameCol hoursIdx cols)
    (hres : rec.jira_user = some u) :
    ((buildRow tm agg rec).status = "⚠️ Расхождение" ↔ 4 < |(buildRow tm agg rec).diff|)
    ∧ ((buildRow tm agg rec).status = "✅ OK" ↔ ¬ 4 < |(buildRow tm agg rec).diff|)
    ∧ ((buildRow tm agg rec).diff = 4 → (buildRow tm agg rec).status = "✅ OK")
    ∧ ((buildRow tm agg rec).diff = 401 / 100 →
        (buildRow tm agg rec).status = "⚠️ Расхождение")
    ∧ (buildRow tm agg rec).diff = round2 ((buildRow tm agg rec).hours_tempo - rec.hours_1c) := by
  obtain ⟨i, hi⟩ := mem_extractRecords hrec
  obtain ⟨-, hfind, -, -⟩ := recordAt_some hi
  rw [hres] at hfind
  have hmatch0 := List.find?_some hfind.symm
  have hmatch : check_name_match u.displayName rec.name_1c = true := hmatch0
  have hd : u.displayName ≠ "—" := by
    intro heq
    rw [heq, check_name_match_dash] at hmatch
    exact absurd hmatch (by simp)
  obtain ⟨hstat, hdiff⟩ := buildRow_resolved tm agg rec u hres hd
  have habs401 : (4 : ℚ) < |401 / 100| := by
    rw [show |((401 : ℚ) / 100)| = 401 / 100 from abs_of_nonneg (by norm_num)]
    norm_num
  have habs4 : ¬ (4 : ℚ) < |(4 : ℚ)| := by
    rw [show |(4 : ℚ)| = 4 from abs_of_nonneg (by norm_num)]
    norm_num
  by_cases hgt : 4 < |(buildRow tm agg rec).diff|
  · rw [if_pos hgt] at hstat
    refine ⟨⟨fun _ => hgt, fun _ => hstat⟩, ⟨fun hok => ?_, fun h => absurd hgt h⟩, ?_, ?_, hdiff⟩
    · rw [hstat] at hok; exact absurd hok (by decide)
    · intro h4; rw [h4] at hgt; exact absurd hgt habs4
    · intro _; exact hstat
  · rw [if_neg hgt] at hstat
    refine ⟨⟨fun hv => ?_, fun h => absurd h hgt⟩, ⟨fun _ => hgt, fun _ => hstat⟩, ?_, ?_, hdiff⟩
    · rw [hstat] at hv; exact absurd hv (by decide)
    · intro _; exact hstat
    · intro h4; rw [h4] at hgt; exact absurd habs401 hgt


/-- Witness for `resolved_status_variance_iff` at a concrete extracted record. -/
theorem resolved_status_variance_iff_witness :
    wRec ∈ extractRecords wSheet [wUser] 0 0 none [1]
    ∧ wRec.jira_user = some wUser
    ∧ ((buildRow (fun _ => none) (fun _ => none) wRec).status = "⚠️ Расхождение" ↔
        4 < |(buildRow (fun _ => none) (fun _ => none) wRec).diff|) :=
  ⟨by decide, rfl,
    (resolved_status_variance_iff wSheet [wUser] 0 0 none [1] (fun _ => none) (fun _ => none)
      wRec wUser (by decide) rfl).1⟩

lemma round2_zero : round2 0 = 0 := by
  unfold round2 roundHalfEven
  norm_num

/-- C3: a report row built from a record whose identity resolution returned no
directory user has `hours_tempo = 0`, team `Other` and the unresolved status,
regardless of its 1C hours; and every report row's status is one of
`✅ OK`, `⚠️ Расхождение`, `❓ Не найден в Jira`. -/
theorem unresolved_row_shape (tm : String → Option String) (agg : Option String → Option ℤ) :
    (∀ r : Record, r.jira_user = none →
      (buildRow tm agg r).hours_tempo = 0 ∧ (buildRow tm agg r).team = "Other"
        ∧ (buildRow tm agg r).status = "❓ Не найден в Jira")
    ∧ ∀ r : Record,
        (buildRow tm agg r).status = "✅ OK" ∨ (buildRow tm agg r).status = "⚠️ Расхождение"
        ∨ (buildRow tm agg r).status = "❓ Не найден в Jira" := by
  constructor
  · intro r hr
    refine ⟨?_, ?_, ?_⟩ <;> simp [buildRow, hr, round2_zero]
  · intro r
    rcases hr : r.jira_user with _ | u
    · right; right
      simp [buildRow, hr]
    · simp only [buildRow, hr]
      split
      · right; right; rfl
      · split
        · right; left; rfl
        · left; rfl

/-- Witness for `unresolved_row_shape` at a concrete unresolved record. -/
theorem unresolved_row_shape_witness :
    (⟨"Петров Петр", 160, none, []⟩ : Record).jira_user = none
    ∧ ((buildRow (fun _ => none) (fun _ => none) ⟨"Петров Петр", 160, none, []⟩).hours_tempo = 0
      ∧ (buildRow (fun _ => none) (fun _ => none) ⟨"Петров Петр", 160, none, []⟩).team = "Other"
      ∧ (buildRow (fun _ => none) (fun _ => none) ⟨"Петров Петр", 160, none, []⟩).status =
          "❓ Не найден в Jira") :=
  ⟨rfl, (unresolved_row_shape (fun _ => none) (fun _ => none)).1 _ rfl⟩

/-- When the hours column index is falsy (`None` or `0`), the block fold never
updates the initial `hours = 0`. -/
lemma blockHours_falsy (s : Sheet) (i : Nat) (hoursIdx : Option Nat)
    (h : pyTruthyNat hoursIdx = false) : blockHours s i hoursIdx = 0 := by
  unfold blockHours
  generalize blockOffsets s i = l
  induction l with
  | nil => rfl
  | cons o os ih => simp [h, ih]

lemma dedup_ne_nil {l : List String} (h : l ≠ []) : dedup l ≠ [] := by
  cases l with
  | nil => exact absurd rfl h
  | cons x xs => simp [dedup, dedupAux]

lemma insStr_ne_nil (x : String) (l : List String) : insStr x l ≠ [] := by
  cases l with
  | nil => simp [insStr]
  | cons y ys => unfold insStr; split <;> simp

lemma sortStr_ne_nil {l : List String} (h : l ≠ []) : sortStr l ≠ [] := by
  cases l with
  | nil => exact absurd rfl h
  | cons x xs => exact insStr_ne_nil x (sortStr xs)

/-- C10: when the located hours column is `None` or column `0`, the hours
lookup is skipped for every row (the index is tested for truthiness), so every
extracted record has zero hours and rows without absence codes are not emitted
at all. -/
theorem hours_col_truthiness
    (s : Sheet) (users : List DirectoryUser) (headerRow nameCol : Nat) (cols : List Nat)
    (h : locateHoursCol s = none ∨ locateHoursCol s = some 0) :
    ∀ rec ∈ extractRecords s users headerRow nameCol (locateHoursCol s) cols,
      rec.hours_1c = 0 ∧ rec.absences ≠ [] := by
  have hf : pyTruthyNat (locateHoursCol s) = false := by
    rcases h with h | h <;> rw [h] <;> rfl
  intro rec hrec
  obtain ⟨i, hi⟩ := mem_extractRecords hrec
  obtain ⟨hh, -, habs, hcond⟩ := recordAt_some hi
  have hb0 : blockHours s i (locateHoursCol s) = 0 := blockHours_falsy _ _ _ hf
  rcases hcond with hpos | hne
  · rw [hb0] at hpos
    exact absurd hpos (by norm_num)
  · refine ⟨by rw [hh, hb0], ?_⟩
    rw [habs]
    exact sortStr_ne_nil (dedup_ne_nil hne)

/-- Witness for `hours_col_truthiness`: on `wSheet` the midpoint row contains
no numeric cell, so no hours column is found. -/
theorem hours_col_truthiness_witness :
    (locateHoursCol wSheet = none ∨ locateHoursCol wSheet = some 0)
    ∧ ∀ rec ∈ extractRecords wSheet [wUser] 0 0 (locateHoursCol wSheet) [1],
        rec.hours_1c = 0 ∧ rec.absences ≠ [] :=
  ⟨Or.inl (by decide),
    hours_col_truthiness wSheet [wUser] 0 0 [1] (Or.inl (by decide))⟩

lemma mem_dedupAux (l : List String) : ∀ (seen : List String) (x : String),
    x ∈ dedupAux seen l ↔ (x ∈ l ∧ x ∉ seen) := by
  induction l with
  | nil => intro seen x; simp [dedupAux]
  | cons y ys ih =>
    intro seen x
    unfold dedupAux
    by_cases hy : seen.contains y = true
    · have hymem : y ∈ seen := List.elem_iff.mp hy
      rw [if_pos hy, ih]
      simp only [List.mem_cons]
      constructor
      · rintro ⟨h1, h2⟩
        exact ⟨Or.inr h1, h2⟩
      · rintro ⟨h1 | h1, h2⟩
        · exact absurd (h1 ▸ hymem) h2
        · exact ⟨h1, h2⟩
    · have hymem : y ∉ seen := fun hm => hy (List.elem_iff.mpr hm)
      rw [if_neg hy]
      simp only [List.mem_cons, ih]
      constructor
      · rintro (rfl | ⟨h1, h2⟩)
        · exact ⟨Or.inl rfl, hymem⟩
        · exact ⟨Or.inr h1, fun hm => h2 (Or.inr hm)⟩
      · rintro ⟨h1 | h1, h2⟩
        · exact Or.inl h1
        · by_cases hxy : x = y
          · exact Or.inl hxy
          · exact Or.inr ⟨h1, fun hm => hm.elim hxy h2⟩

lemma mem_dedup (l : List String) (x : String) : x ∈ dedup l ↔ x ∈ l := by
  rw [dedup, mem_dedupAux]
  simp

lemma mem_insStr (x y : String) (l : List String) : y ∈ insStr x l ↔ y = x ∨ y ∈ l := by
  induction l with
  | nil => simp [insStr]
  | cons z zs ih =>
    unfold insStr
    split
    · simp only [List.mem_cons, ih]
      tauto
    · simp only [List.mem_cons]

lemma mem_sortStr (l : List String) (x : String) : x ∈ sortStr l ↔ x ∈ l := by
  induction l with
  | nil => simp [sortStr]
  | cons y ys ih =>
    show x ∈ insStr y (sortStr ys) ↔ _
    rw [mem_insStr, ih]
    simp

lemma str_ne_empty_iff (x : String) : x ≠ "" ↔ x.data ≠ [] := by
  rw [ne_eq, ne_eq, String.ext_iff]

lemma absCond_iff (x : String) : absCond x = true ↔
    x ≠ "" ∧ pyIsdigit x.data = false ∧ x.data.length < 5
      ∧ String.mk (upperL x.data) ≠ "Я" := by
  unfold absCond
  rw [str_ne_empty_iff]
  simp only [Bool.and_eq_true, Bool.not_eq_true', decide_eq_true_iff,
    List.isEmpty_eq_false]
  constructor
  · rintro ⟨⟨⟨h1, h2⟩, h3⟩, h4⟩
    exact ⟨h1, h2, h3, h4⟩
  · rintro ⟨h1, h2, h3, h4⟩
    exact ⟨⟨⟨h1, h2⟩, h3⟩, h4⟩

/-- Membership in the raw absence-value list of a block. -/
lemma mem_blockAbsences {s : Sheet} {i : Nat} {cols : List Nat} {x : String} :
    x ∈ blockAbsences s i cols ↔
      ∃ o, o < 4 ∧ i + o < s.rows.length ∧ ∃ c ∈ cols, ∃ v,
        cellAt s (i + o) c = some v ∧ x = String.mk (trimChars v.data)
          ∧ absCond x = true := by
  unfold blockAbsences blockOffsets
  rw [List.mem_flatten]
  constructor
  · rintro ⟨piece, hpiece, hx⟩
    rw [List.mem_map] at hpiece
    obtain ⟨o, ho, rfl⟩ := hpiece
    rw [List.mem_filter, List.mem_range] at ho
    obtain ⟨ho4, holt⟩ := ho
    rw [List.mem_filterMap] at hx
    obtain ⟨c, hc, hsome⟩ := hx
    rcases hv : cellAt s (i + o) c with _ | v <;> rw [hv] at hsome
    · exact Option.noConfusion hsome
    · simp only [] at hsome
      by_cases hcond : absCond (String.mk (trimChars v.data)) = true
      · rw [if_pos hcond] at hsome
        injection hsome with hsome
        subst hsome
        exact ⟨o, ho4, by simpa using holt, c, hc, v, hv, rfl, hcond⟩
      · rw [if_neg hcond] at hsome
        exact Option.noConfusion hsome
  · rintro ⟨o, ho4, holt, c, hc, v, hv, rfl, hcond⟩
    refine ⟨_, List.mem_map.mpr ⟨o, ?_, rfl⟩, ?_⟩
    · rw [List.mem_filter, List.mem_range]
      exact ⟨ho4, by simpa using holt⟩
    · rw [List.mem_filterMap]
      exact ⟨c, hc, by rw [hv]; simp only []; rw [if_pos hcond]⟩

/-- C6: a record's absence codes are exactly the stripped cell values of the
up-to-4-row block in the absence columns that are non-blank, not digit
strings, shorter than 5 characters, and not the attendance marker `Я`
(case-insensitively); every other value contributes nothing. -/
theorem absence_codes_characterization
    (s : Sheet) (users : List DirectoryUser) (nameCol : Nat) (hoursIdx : Option Nat)
    (cols : List Nat) (i : Nat) (rec : Record)
    (h : recordAt s users nameCol hoursIdx cols i = some rec) (x : String) :
    x ∈ rec.absences ↔
      ∃ o, o < 4 ∧ i + o < s.rows.length ∧ ∃ c ∈ cols, ∃ v,
        cellAt s (i + o) c = some v ∧ x = String.mk (trimChars v.data)
          ∧ x ≠ "" ∧ pyIsdigit x.data = false ∧ x.data.length < 5
          ∧ String.mk (upperL x.data) ≠ "Я" := by
  obtain ⟨-, -, habs, -⟩ := recordAt_some h
  rw [habs, mem_sortStr, mem_dedup, mem_blockAbsences]
  constructor
  · rintro ⟨o, h1, h2, c, h3, v, h4, h5, h6⟩
    obtain ⟨g1, g2, g3, g4⟩ := (absCond_iff x).mp h6
    exact ⟨o, h1, h2, c, h3, v, h4, h5, g1, g2, g3, g4⟩
  · rintro ⟨o, h1, h2, c, h3, v, h4, h5, g1, g2, g3, g4⟩
    exact ⟨o, h1, h2, c, h3, v, h4, h5, (absCond_iff x).mpr ⟨g1, g2, g3, g4⟩⟩

/-- Witness for `absence_codes_characterization` at the concrete record of
`wSheet`. -/
theorem absence_codes_characterization_witness :
    recordAt wSheet [wUser] 0 none [1] 1 = some wRec
    ∧ ("ОТ" ∈ wRec.absences ↔
        ∃ o, o < 4 ∧ 1 + o < wSheet.rows.length ∧ ∃ c ∈ [1], ∃ v,
          cellAt wSheet (1 + o) c = some v ∧ "ОТ" = String.mk (trimChars v.data)
            ∧ "ОТ" ≠ "" ∧ pyIsdigit "ОТ".data = false ∧ "ОТ".data.length < 5
            ∧ String.mk (upperL "ОТ".data) ≠ "Я") :=
  ⟨by decide,
    absence_codes_characterization wSheet [wUser] 0 none [1] 1 wRec (by decide) "ОТ"⟩

/-! ## C5: worklog batching and aggregation -/

lemma chunks_step (l : List String) (f : Nat) (h0 : l ≠ []) :
    chunksGo (f + 1) l = l.take 25 :: chunksGo f (l.drop 25) := by
  cases l with
  | nil => exact absurd rfl h0
  | cons x xs => rfl

lemma chunksGo_flatten : ∀ (fuel : Nat) (l : List String), l.length ≤ fuel →
    (chunksGo fuel l).flatten = l := by
  intro fuel
  induction fuel with
  | zero =>
    intro l hl
    cases l with
    | nil => rfl
    | cons x xs => simp at hl
  | succ f ih =>
    intro l hl
    cases l with
    | nil => rfl
    | cons x xs =>
      rw [chunks_step _ _ (by simp), List.flatten_cons,
        ih _ (by simp [List.length_drop] at hl ⊢; omega), List.take_append_drop]

lemma chunksGo_le25 : ∀ (fuel : Nat) (l : List String), ∀ c ∈ chunksGo fuel l, c.length ≤ 25 := by
  intro fuel
  induction fuel with
  | zero =>
    intro l c hc
    cases l with
    | nil => simp [chunksGo] at hc
    | cons x xs => simp [chunksGo] at hc
  | succ f ih =>
    intro l c hc
    cases l with
    | nil => simp [chunksGo] at hc
    | cons x xs =>
      rw [chunks_step _ _ (by simp)] at hc
      rcases List.mem_cons.mp hc with rfl | hc
      · simp [List.length_take]
      · exact ih _ c hc

lemma chunks25_sixty (ids : List String) (h : ids.length = 60) :
    (chunks25 ids).map List.length = [25, 25, 10] := by
  unfold chunks25
  rw [h]
  have l1 : (ids.drop 25).length = 35 := by rw [List.length_drop, h]
  have l2 : ((ids.drop 25).drop 25).length = 10 := by rw [List.length_drop, l1]
  have l3 : (((ids.drop 25).drop 25).drop 25).length = 0 := by rw [List.length_drop, l2]
  have e1 : chunksGo 60 ids = ids.take 25 :: chunksGo 59 (ids.drop 25) :=
    chunks_step ids 59 (by intro he; rw [he] at h; simp at h)
  have e2 : chunksGo 59 (ids.drop 25) =
      (ids.drop 25).take 25 :: chunksGo 58 ((ids.drop 25).drop 25) :=
    chunks_step _ 58 (by intro he; rw [he] at l1; simp at l1)
  have e3 : chunksGo 58 ((ids.drop 25).drop 25) =
      ((ids.drop 25).drop 25).take 25 :: chunksGo 57 (((ids.drop 25).drop 25).drop 25) :=
    chunks_step _ 57 (by intro he; rw [he] at l2; simp at l2)
  have e4 : chunksGo 57 (((ids.drop 25).drop 25).drop 25) = [] := by
    rcases hz : ((ids.drop 25).drop 25).drop 25 with _ | ⟨z, zs⟩
    · rfl
    · rw [hz] at l3; simp at l3
  rw [e1, e2, e3, e4]
  simp [List.length_take, h, l1, l2]

/-- The aggregation map sums `timeSpentSeconds` per worker identifier. -/
lemma tempoAgg_sum (logs : List Worklog) (w : Option String) :
    ((tempoAggOf logs) w).getD 0 =
      ((logs.filter (fun l => l.worker == w)).map Worklog.timeSpentSeconds).sum := by
  suffices h : ∀ (m : Option String → Option ℤ),
      ((logs.foldl aggStep m) w).getD 0 =
        (m w).getD 0 + ((logs.filter (fun l => l.worker == w)).map
          Worklog.timeSpentSeconds).sum by
    simpa [tempoAggOf] using h (fun _ => none)
  induction logs with
  | nil => intro m; simp
  | cons l ls ih =>
    intro m
    rw [List.foldl_cons, ih]
    by_cases hw : l.worker = w
    · have hstep : (aggStep m l) w = some ((m w).getD 0 + l.timeSpentSeconds) := by
        simp [aggStep, hw]
      rw [hstep]
      rw [List.filter_cons_of_pos (by simp [hw]), List.map_cons, List.sum_cons]
      simp only [Option.getD_some]
      ring
    · have hstep : (aggStep m l) w = m w := by
        simp [aggStep]
        intro he
        exact absurd he.symm hw
      rw [hstep, List.filter_cons_of_neg (by simp [hw])]

/-- C5: the worklog fetch partitions the identifier list into consecutive
batches of at most 25, one request per batch in order (`fetchTempoWorklogs`
maps the request over `chunks25 ids` and concatenates); 60 identifiers give
exactly 3 batches of sizes 25, 25, 10; and the returned totals are summed per
worker identifier across all batches. -/
theorem worklog_batching :
    (∀ ids : List String, (chunks25 ids).flatten = ids ∧ ∀ c ∈ chunks25 ids, c.length ≤ 25)
    ∧ (∀ ids : List String, ids.length = 60 →
        (chunks25 ids).map List.length = [25, 25, 10] ∧ (chunks25 ids).length = 3)
    ∧ (∀ (req : List String → Option (List Worklog)) (ids : List String) (w : Option String),
        ((tempoAggOf (fetchTempoWorklogs req ids)) w).getD 0 =
          (((fetchTempoWorklogs req ids).filter (fun l => l.worker == w)).map
            Worklog.timeSpentSeconds).sum) := by
  refine ⟨fun ids => ⟨chunksGo_flatten _ _ le_rfl, chunksGo_le25 _ _⟩, fun ids h => ⟨chunks25_sixty ids h, ?_⟩,
    fun req ids w => tempoAgg_sum _ _⟩
  have := congrArg List.length (chunks25_sixty ids h)
  simpa using this


/-- Witness for `worklog_batching` at a concrete 60-identifier list. -/
theorem worklog_batching_witness :
    wIds.length = 60
    ∧ (chunks25 wIds).map List.length = [25, 25, 10] ∧ (chunks25 wIds).length = 3 :=
  ⟨by decide, worklog_batching.2.1 wIds (by decide)⟩

/-! ## C8: failed upstream requests are skipped -/

lemma flatten_getD_filterMap (l : List (List String))
    (req : List String → Option (List Worklog)) :
    (l.map (fun c => (req c).getD [])).flatten = (l.filterMap req).flatten := by
  induction l with
  | nil => rfl
  | cons c cs ih =>
    rw [List.map_cons, List.flatten_cons, List.filterMap_cons]
    cases hc : req c with
    | none => simp [ih]
    | some logs => simp [List.flatten_cons, ih]

/-- C8: a failed team-membership request contributes nothing to the team map
(the team is skipped and aggregation continues over the remaining teams); a
failed worklog batch contributes nothing (only successful batches reach the
aggregate); and whether a report is produced does not depend on the upstream
oracles at all — a report is still built from the partial data. -/
theorem upstream_failures_skipped :
    (∀ (ts1 ts2 : List TeamInfo) (t : TeamInfo) (mo : Nat → Option (List MemberEntry))
        (startKey endKey : Nat), mo t.id = none →
      getTempoTeamsAssignments (some (ts1 ++ t :: ts2)) mo startKey endKey =
        getTempoTeamsAssignments (some (ts1 ++ ts2)) mo startKey endKey)
    ∧ (∀ (req : List String → Option (List Worklog)) (ids : List String),
        fetchTempoWorklogs req ids = ((chunks25 ids).filterMap req).flatten)
    ∧ (∀ (s : Sheet) (users : List DirectoryUser) tA tA2 mo mo2 bo bo2,
        (processFile s users tA mo bo).isOk = (processFile s users tA2 mo2 bo2).isOk) := by
  refine ⟨?_, ?_, ?_⟩
  · intro ts1 ts2 t mo startKey endKey hmo
    simp only [getTempoTeamsAssignments]
    rw [List.filter_append, List.filter_append, List.filter_cons]
    by_cases hp : teamNamePat t.name = true
    · rw [if_pos hp]
      simp only [List.foldl_append, List.foldl_cons, hmo]
    · rw [if_neg hp]
  · intro req ids
    exact flatten_getD_filterMap _ _
  · intro s users tA tA2 mo mo2 bo bo2
    simp only [processFile]
    cases hp : extractPeriod s with
    | none => rfl
    | some p =>
      cases p with
      | mk sk ek =>
        cases hh : findHeader s with
        | none => rfl
        | some rc => rfl

/-- Witness for `upstream_failures_skipped` at concrete inputs: the
all-failing member oracle skips the team, and a failing batch oracle still
lets the pipeline produce a report. -/
theorem upstream_failures_skipped_witness :
    ((fun _ => none : Nat → Option (List MemberEntry)) (TeamInfo.mk 7 "arch-team").id = none
      ∧ getTempoTeamsAssignments (some ([] ++ TeamInfo.mk 7 "arch-team" :: []))
          (fun _ => none) 20240101 20240131 =
        getTempoTeamsAssignments (some ([] ++ []))
          (fun _ => none) 20240101 20240131)
    ∧ fetchTempoWorklogs (fun _ => none) ["a"] =
        ((chunks25 ["a"]).filterMap (fun _ => none)).flatten :=
  ⟨⟨rfl, upstream_failures_skipped.1 [] [] (TeamInfo.mk 7 "arch-team")
      (fun _ => none) 20240101 20240131 rfl⟩,
    upstream_failures_skipped.2.1 (fun _ => none) ["a"]⟩

/-! ## C9: the reporting period -/

lemma foldlMin_le (xs : List Nat) : ∀ x : Nat,
    xs.foldl Nat.min x ≤ x ∧ ∀ y ∈ xs, xs.foldl Nat.min x ≤ y := by
  induction xs with
  | nil => intro x; exact ⟨le_rfl, by simp⟩
  | cons z zs ih =>
    intro x
    rw [List.foldl_cons]
    obtain ⟨h1, h2⟩ := ih (Nat.min x z)
    refine ⟨le_trans h1 (Nat.min_le_left _ _), ?_⟩
    intro y hy
    rcases List.mem_cons.mp hy with rfl | hy
    · exact le_trans h1 (Nat.min_le_right _ _)
    · exact h2 y hy

lemma foldlMin_mem (xs : List Nat) : ∀ x : Nat,
    xs.foldl Nat.min x = x ∨ xs.foldl Nat.min x ∈ xs := by
  induction xs with
  | nil => intro x; exact Or.inl rfl
  | cons z zs ih =>
    intro x
    rw [List.foldl_cons]
    rcases ih (Nat.min x z) with h | h
    · rcases Nat.le_total x z with hle | hle
      · exact Or.inl (by rw [h]; exact Nat.min_eq_left hle)
      · refine Or.inr ?_
        have hz : Nat.min x z = z := Nat.min_eq_right hle
        rw [h, hz]
        exact List.mem_cons_self z zs
    · exact Or.inr (List.mem_cons_of_mem z h)

lemma foldlMax_ge (xs : List Nat) : ∀ x : Nat,
    x ≤ xs.foldl Nat.max x ∧ ∀ y ∈ xs, y ≤ xs.foldl Nat.max x := by
  induction xs with
  | nil => intro x; exact ⟨le_rfl, by simp⟩
  | cons z zs ih =>
    intro x
    rw [List.foldl_cons]
    obtain ⟨h1, h2⟩ := ih (Nat.max x z)
    refine ⟨le_trans (Nat.le_max_left _ _) h1, ?_⟩
    intro y hy
    rcases List.mem_cons.mp hy with rfl | hy
    · exact le_trans (Nat.le_max_right _ _) h1
    · exact h2 y hy

lemma foldlMax_mem (xs : List Nat) : ∀ x : Nat,
    xs.foldl Nat.max x = x ∨ xs.foldl Nat.max x ∈ xs := by
  induction xs with
  | nil => intro x; exact Or.inl rfl
  | cons z zs ih =>
    intro x
    rw [List.foldl_cons]
    rcases ih (Nat.max x z) with h | h
    · rcases Nat.le_total x z with hle | hle
      · refine Or.inr ?_
        have hz : Nat.max x z = z := Nat.max_eq_right hle
        rw [h, hz]
        exact List.mem_cons_self z zs
      · exact Or.inl (by rw [h]; exact Nat.max_eq_left hle)
    · exact Or.inr (List.mem_cons_of_mem z h)

/-- C9: the reporting period is derived solely from the first 20 rows; it is
the minimum and maximum of the valid `dd.mm.yyyy` matches found there; with
fewer than two such dates the run aborts with the user-visible period message
before any table location (whatever the rest of the sheet contains). -/
theorem period_from_first_rows :
    (∀ s s2 : Sheet, s.rows.take 20 = s2.rows.take 20 → periodDates s = periodDates s2)
    ∧ (∀ (s : Sheet) (users : List DirectoryUser) tA mo bo, (periodDates s).length < 2 →
        processFile s users tA mo bo = .error "⚠️ Не найден период дат.")
    ∧ (∀ (s : Sheet) (a b : Nat), extractPeriod s = some (a, b) →
        2 ≤ (periodDates s).length ∧ a ∈ periodDates s ∧ b ∈ periodDates s
          ∧ ∀ x ∈ periodDates s, a ≤ x ∧ x ≤ b) := by
  refine ⟨?_, ?_, ?_⟩
  · intro s s2 h
    unfold periodDates
    rw [h]
  · intro s users tA mo bo hlen
    have hnone : extractPeriod s = none := by
      unfold extractPeriod
      rcases hpd : periodDates s with _ | ⟨x, rest⟩
      · rfl
      · rcases rest with _ | ⟨y, rest2⟩
        · rfl
        · rw [hpd] at hlen
          simp only [List.length_cons] at hlen
          omega
    simp only [processFile, hnone]
  · intro s a b h
    unfold extractPeriod at h
    rcases hpd : periodDates s with _ | ⟨x, rest⟩ <;> rw [hpd] at h
    · exact Option.noConfusion h
    · rcases rest with _ | ⟨y, rest2⟩
      · exact Option.noConfusion h
      · injection h with h
        have ha : a = (y :: rest2).foldl Nat.min x := (congrArg Prod.fst h).symm
        have hb : b = (y :: rest2).foldl Nat.max x := (congrArg Prod.snd h).symm
        rw [ha, hb]
        obtain ⟨hminx, hminmem⟩ := foldlMin_le (y :: rest2) x
        obtain ⟨hmaxx, hmaxmem⟩ := foldlMax_ge (y :: rest2) x
        refine ⟨by simp, ?_, ?_, ?_⟩
        · rcases foldlMin_mem (y :: rest2) x with hm | hm
          · rw [hm]; exact List.mem_cons_self _ _
          · exact List.mem_cons_of_mem _ hm
        · rcases foldlMax_mem (y :: rest2) x with hm | hm
          · rw [hm]; exact List.mem_cons_self _ _
          · exact List.mem_cons_of_mem _ hm
        · intro v hv
          rcases List.mem_cons.mp hv with rfl | hv
          · exact ⟨hminx, hmaxx⟩
          · exact ⟨hminmem v hv, hmaxmem v hv⟩

/-! ## C7: the header scan -/

lemma findColAux_none (row : List Cell) : ∀ (k : Nat), findColAux row k = none →
    ∀ cell ∈ row, headerMatch cell = false := by
  induction row with
  | nil =>
    intro k _ cell hc
    exact absurd hc (List.not_mem_nil cell)
  | cons c cs ih =>
    intro k h cell hc
    unfold findColAux at h
    by_cases hm : headerMatch c = true
    · rw [if_pos hm] at h
      exact Option.noConfusion h
    · rw [if_neg hm] at h
      rcases List.mem_cons.mp hc with rfl | hc
      · exact Bool.eq_false_iff.mpr hm
      · exact ih (k + 1) h cell hc

lemma findColAux_some (row : List Cell) : ∀ (k c : Nat), findColAux row k = some c →
    k ≤ c ∧ (∃ cell, row.get? (c - k) = some cell ∧ headerMatch cell = true)
      ∧ ∀ j cell2, j < c - k → row.get? j = some cell2 → headerMatch cell2 = false := by
  induction row with
  | nil => intro k c h; exact Option.noConfusion h
  | cons x xs ih =>
    intro k c h
    unfold findColAux at h
    by_cases hm : headerMatch x = true
    · rw [if_pos hm] at h
      injection h with h
      subst h
      refine ⟨le_rfl, ⟨x, by simp, hm⟩, ?_⟩
      intro j cell2 hj _
      exact absurd hj (by omega)
    · rw [if_neg hm] at h
      obtain ⟨h1, ⟨cell, hget, hcell⟩, hmin⟩ := ih (k + 1) c h
      have hkc : k ≤ c := by omega
      have hsub : c - k = (c - (k + 1)) + 1 := by omega
      refine ⟨hkc, ⟨cell, ?_, hcell⟩, ?_⟩
      · rw [hsub]
        simpa using hget
      · intro j cell2 hj hget2
        cases j with
        | zero =>
          injection hget2 with hget2
          subst hget2
          exact Bool.eq_false_iff.mpr hm
        | succ j2 =>
          rw [List.get?_cons_succ] at hget2
          exact hmin j2 cell2 (by omega) hget2

lemma findHeaderAux_none (rows : List (List Cell)) : ∀ (r : Nat),
    findHeaderAux rows r = none → ∀ row ∈ rows, ∀ cell ∈ row, headerMatch cell = false := by
  induction rows with
  | nil =>
    intro r _ row hr
    exact absurd hr (List.not_mem_nil row)
  | cons row0 rest ih =>
    intro r h row hr
    unfold findHeaderAux at h
    cases hcol : findColAux row0 0 with
    | some c =>
      rw [hcol] at h
      exact Option.noConfusion h
    | none =>
      rw [hcol] at h
      rcases List.mem_cons.mp hr with rfl | hr
      · exact findColAux_none _ _ hcol
      · exact ih (r + 1) h row hr

lemma findHeaderAux_some (rows : List (List Cell)) : ∀ (r0 r c : Nat),
    findHeaderAux rows r0 = some (r, c) →
    r0 ≤ r ∧ (∃ row, rows.get? (r - r0) = some row ∧ findColAux row 0 = some c)
      ∧ ∀ i row2, i < r - r0 → rows.get? i = some row2 → findColAux row2 0 = none := by
  induction rows with
  | nil => intro r0 r c h; exact Option.noConfusion h
  | cons row0 rest ih =>
    intro r0 r c h
    unfold findHeaderAux at h
    cases hcol : findColAux row0 0 with
    | some c1 =>
      rw [hcol] at h
      injection h with h
      have hr : r0 = r := congrArg Prod.fst h
      have hc : c1 = c := congrArg Prod.snd h
      subst hr
      subst hc
      refine ⟨le_rfl, ⟨row0, by simp, hcol⟩, ?_⟩
      intro i row2 hi _
      exact absurd hi (by omega)
    | none =>
      rw [hcol] at h
      obtain ⟨h1, ⟨row, hget, hrow⟩, hmin⟩ := ih (r0 + 1) r c h
      have hr0 : r0 ≤ r := by omega
      have hsub : r - r0 = (r - (r0 + 1)) + 1 := by omega
      refine ⟨hr0, ⟨row, ?_, hrow⟩, ?_⟩
      · rw [hsub]
        simpa using hget
      · intro i row2 hi hget2
        cases i with
        | zero =>
          injection hget2 with hget2
          subst hget2
          exact hcol
        | succ i2 =>
          rw [List.get?_cons_succ] at hget2
          exact hmin i2 row2 (by omega) hget2

lemma findHeaderAux_isSome (rows : List (List Cell)) (r : Nat)
    (hex : ∃ row ∈ rows, ∃ cell ∈ row, headerMatch cell = true) :
    ∃ p, findHeaderAux rows r = some p := by
  cases hfa : findHeaderAux rows r with
  | some p => exact ⟨p, rfl⟩
  | none =>
    obtain ⟨row, hrow, cell, hcell, hm⟩ := hex
    have hfalse := findHeaderAux_none rows r hfa row hrow cell hcell
    rw [hm] at hfalse
    exact Bool.noConfusion hfalse

/-- C7: if no cell's text starts with `фамилия` (case-insensitively), the run
aborts with a user-visible message and produces no report; otherwise the first
matching cell in row-major scan order determines `header_row` and `name_col`. -/
theorem header_scan_characterization :
    (∀ (s : Sheet) (users : List DirectoryUser) tA mo bo,
        s.rows.all (fun row => row.all (fun cell => !headerMatch cell)) = true →
        ∃ m, processFile s users tA mo bo = .error m)
    ∧ (∀ (s : Sheet) (r c : Nat), findHeader s = some (r, c) →
        (∃ row cell, s.rows.get? r = some row ∧ row.get? c = some cell
            ∧ headerMatch cell = true)
        ∧ ∀ r2 c2 row2 cell2, s.rows.get? r2 = some row2 → row2.get? c2 = some cell2 →
            headerMatch cell2 = true → r < r2 ∨ (r = r2 ∧ c ≤ c2))
    ∧ (∀ s : Sheet, (∃ row ∈ s.rows, ∃ cell ∈ row, headerMatch cell = true) →
        ∃ r c, findHeader s = some (r, c)) := by
  refine ⟨?_, ?_, ?_⟩
  · intro s users tA mo bo hall
    cases hp : extractPeriod s with
    | none =>
      refine ⟨"⚠️ Не найден период дат.", ?_⟩
      simp only [processFile, hp]
    | some p =>
      have hnone : findHeader s = none := by
        cases hf : findHeader s with
        | none => rfl
        | some rc =>
          obtain ⟨r, c⟩ := rc
          obtain ⟨-, ⟨row, hrow, hcol⟩, -⟩ := findHeaderAux_some s.rows 0 r c hf
          obtain ⟨-, ⟨cell, hget, hcell⟩, -⟩ := findColAux_some row 0 c hcol
          have hrmem : row ∈ s.rows := List.get?_mem hrow
          have hcmem : cell ∈ row := List.get?_mem hget
          rw [List.all_eq_true] at hall
          have h2 := hall row hrmem
          rw [List.all_eq_true] at h2
          have h3 := h2 cell hcmem
          rw [hcell] at h3
          exact absurd h3 (by decide)
      obtain ⟨sk, ek⟩ := p
      refine ⟨"❌ Не найдена колонка 'Фамилия'.", ?_⟩
      simp only [processFile, hp, hnone]
  · intro s r c h
    obtain ⟨-, ⟨row, hrow, hcol⟩, hrowmin⟩ := findHeaderAux_some s.rows 0 r c h
    obtain ⟨-, ⟨cell, hget, hcell⟩, hcolmin⟩ := findColAux_some row 0 c hcol
    simp only [Nat.sub_zero] at hrow hget hrowmin hcolmin
    refine ⟨⟨row, cell, hrow, hget, hcell⟩, ?_⟩
    intro r2 c2 row2 cell2 hgr hgc hm
    rcases lt_trichotomy r r2 with hlt | heq | hgt
    · exact Or.inl hlt
    · subst heq
      refine Or.inr ⟨rfl, ?_⟩
      by_contra hle
      push_neg at hle
      have hr2 : row2 = row := by
        rw [hrow] at hgr
        injection hgr with hgr
        exact hgr.symm
      subst hr2
      have hfalse := hcolmin c2 cell2 (by omega) hgc
      rw [hm] at hfalse
      exact Bool.noConfusion hfalse
    · exfalso
      have hnone2 := hrowmin r2 row2 (by omega) hgr
      have hfalse := findColAux_none row2 0 hnone2 cell2 (List.get?_mem hgc)
      rw [hm] at hfalse
      exact Bool.noConfusion hfalse
  · intro s hex
    obtain ⟨p, hp⟩ := findHeaderAux_isSome s.rows 0 hex
    exact ⟨p.1, p.2, by rwa [show (p.1, p.2) = p from rfl]⟩


/-- Witness for `period_from_first_rows` at concrete sheets: one with a single
header cell and no dates (abort), one with exactly two dates (period found). -/
theorem period_from_first_rows_witness :
    ((periodDates wSheetND).length < 2
      ∧ processFile wSheetND [] none (fun _ => none) (fun _ => none) =
          .error "⚠️ Не найден период дат.")
    ∧ (extractPeriod wSheetP = some (20240101, 20240131)
      ∧ (2 ≤ (periodDates wSheetP).length ∧ 20240101 ∈ periodDates wSheetP
          ∧ 20240131 ∈ periodDates wSheetP
          ∧ ∀ x ∈ periodDates wSheetP, 20240101 ≤ x ∧ x ≤ 20240131)) :=
  ⟨⟨by decide,
      period_from_first_rows.2.1 wSheetND [] none (fun _ => none) (fun _ => none) (by decide)⟩,
    ⟨by decide,
      period_from_first_rows.2.2 wSheetP 20240101 20240131 (by decide)⟩⟩

/-- Witness for `header_scan_characterization`: `wSheetP` has no header cell
(the run aborts), while `wSheet` has its header cell at row 0, column 0. -/
theorem header_scan_characterization_witness :
    (wSheetP.rows.all (fun row => row.all (fun cell => !headerMatch cell)) = true
      ∧ ∃ m, processFile wSheetP [] none (fun _ => none) (fun _ => none) = .error m)
    ∧ (findHeader wSheet = some (0, 0)
      ∧ ((∃ row cell, wSheet.rows.get? 0 = some row ∧ row.get? 0 = some cell
            ∧ headerMatch cell = true)
        ∧ ∀ r2 c2 row2 cell2, wSheet.rows.get? r2 = some row2 →
            row2.get? c2 = some cell2 → headerMatch cell2 = true →
            0 < r2 ∨ (0 = r2 ∧ 0 ≤ c2))) :=
  ⟨⟨by decide,
      header_scan_characterization.1 wSheetP [] none (fun _ => none) (fun _ => none) (by decide)⟩,
    ⟨by decide,
      header_scan_characterization.2.1 wSheet 0 0 (by decide)⟩⟩
